import Mathlib

/-!
Verification of the EVM peephole simplification rule catalog
(libevmasm/RuleList.h) against its natural-language specification.

The data model (opcodes, patterns, expression trees) and the rule catalog
are translated from src/libevmasm/RuleList.h.  The word-level semantics of
each opcode is translated from the constant-folding closures of
simplificationRuleListPart1 (lines 61-102 of the source), which are the
single place the source defines opcode arithmetic.  The matcher and the
rewriter are not part of the sources provided under src/, so they are
modelled from the specification (sections 4.2 and 4.4), and are marked as
such in their doc comments.
-/

set_option maxRecDepth 4000

/-- The symbolic EVM opcodes understood by the rule catalog, from
libevmasm/RuleList.h (Instruction enum members referenced there). -/
inductive Opcode where
  | ADD | SADD | MUL | SMUL | SUB | SSUB | DIV | SDIV | MOD | SMOD
  | EXP | NOT | LT | GT | SLT | SGT | EQ | ISZERO | AND | OR | XOR
  | BYTE | ADDMOD | MULMOD | SIGNEXTEND | SHL | SHR
  | ADDRESS | CALLER | ORIGIN | COINBASE
deriving DecidableEq, Repr

/-- Constant-only placeholder identities (A, B, C in the source). -/
inductive ConstPH where
  | A | B | C
deriving DecidableEq, Repr

/-- Arbitrary-expression placeholder identities (X, Y in the source). -/
inductive AnyPH where
  | X | Y
deriving DecidableEq, Repr

/-- A rule pattern: literal word constant, constant-only placeholder,
arbitrary-expression placeholder, or an opcode applied to children.  The
source stores children in a vector; EVM opcodes have arity at most 3, so
the children are encoded with one constructor per arity. -/
inductive Pattern where
  | lit (w : Nat)
  | ph (p : ConstPH)
  | any (p : AnyPH)
  | op0 (o : Opcode)
  | op1 (o : Opcode) (p : Pattern)
  | op2 (o : Opcode) (p q : Pattern)
  | op3 (o : Opcode) (p q r : Pattern)
deriving DecidableEq, Repr

/-- A subject expression tree: a constant or an opcode with children. -/
inductive ExprNode where
  | const (w : Nat)
  | op0 (o : Opcode)
  | op1 (o : Opcode) (e : ExprNode)
  | op2 (o : Opcode) (e f : ExprNode)
  | op3 (o : Opcode) (e f g : ExprNode)
deriving DecidableEq, Repr

/-- The EVM word modulus 2 ^ 256. -/
def W : Nat := 2 ^ 256

instance : NeZero W := ⟨(Nat.two_pow_pos 256).ne'⟩

/-- u256 addition, from the ADD folding closure (A.d() + B.d()). -/
def addW (a b : Nat) : Nat := (a + b) % W

/-- u256 multiplication, from the MUL folding closure. -/
def mulW (a b : Nat) : Nat := (a * b) % W

/-- u256 wrap-around subtraction, from the SUB folding closure. -/
def subW (a b : Nat) : Nat := (a + (W - b % W)) % W

/-- divWorkaround from RuleList.h: bigint division cast back to u256. -/
def divWorkaround (a b : Nat) : Nat := a / b

/-- modWorkaround from RuleList.h: bigint remainder cast back to u256. -/
def modWorkaround (a b : Nat) : Nat := a % b

/-- Modelled from the spec: u2s of libdevcore/CommonData.h (not under
src/), the two's-complement signed reinterpretation of a word. -/
def u2s (a : Nat) : Int := if a < 2 ^ 255 then (a : Int) else (a : Int) - (W : Int)

/-- Modelled from the spec: s2u of libdevcore/CommonData.h (not under
src/), reinterpreting a signed integer as a word modulo 2 ^ 256. -/
def s2u (i : Int) : Nat := (i % (W : Int)).toNat

/-- signed divWorkaround instance: boost bigint division truncates the
quotient toward zero. -/
def divWorkaroundInt (a b : Int) : Int := Int.tdiv a b

/-- signed modWorkaround instance: remainder of truncated division. -/
def modWorkaroundInt (a b : Int) : Int := Int.tmod a b

/-- DIV folding closure: zero divisor yields zero. -/
def divW (a b : Nat) : Nat := if b = 0 then 0 else divWorkaround a b

/-- SDIV folding closure: zero divisor yields zero, otherwise signed
truncated division on the signed views. -/
def sdivW (a b : Nat) : Nat :=
  if b = 0 then 0 else s2u (divWorkaroundInt (u2s a) (u2s b))

/-- MOD folding closure: zero divisor yields zero. -/
def modW (a b : Nat) : Nat := if b = 0 then 0 else modWorkaround a b

/-- SMOD folding closure. -/
def smodW (a b : Nat) : Nat :=
  if b = 0 then 0 else s2u (modWorkaroundInt (u2s a) (u2s b))

/-- EXP folding closure: modular exponentiation powm(a, b, 2 ^ 256). -/
def expW (a b : Nat) : Nat := (a ^ b) % W

/-- NOT folding closure: u256 bitwise complement. -/
def notW (a : Nat) : Nat := W - 1 - a % W

/-- LT folding closure. -/
def ltW (a b : Nat) : Nat := if a < b then 1 else 0

/-- GT folding closure. -/
def gtW (a b : Nat) : Nat := if b < a then 1 else 0

/-- SLT folding closure: compares the signed views. -/
def sltW (a b : Nat) : Nat := if u2s a < u2s b then 1 else 0

/-- SGT folding closure. -/
def sgtW (a b : Nat) : Nat := if u2s b < u2s a then 1 else 0

/-- EQ folding closure. -/
def eqW (a b : Nat) : Nat := if a = b then 1 else 0

/-- ISZERO folding closure. -/
def iszeroW (a : Nat) : Nat := if a = 0 then 1 else 0

/-- AND folding closure. -/
def andW (a b : Nat) : Nat := a &&& b

/-- OR folding closure. -/
def orW (a b : Nat) : Nat := a ||| b

/-- XOR folding closure. -/
def xorW (a b : Nat) : Nat := a ^^^ b

/-- BYTE folding closure: byte index at least 32 yields zero, otherwise
the selected most-significant-first byte. -/
def byteW (a b : Nat) : Nat :=
  if 32 ≤ a then 0 else (b >>> (8 * (31 - a))) &&& 255

/-- ADDMOD folding closure: zero modulus yields zero, otherwise the
full-width sum reduced modulo the modulus. -/
def addmodW (a b c : Nat) : Nat := if c = 0 then 0 else (a + b) % c

/-- MULMOD folding closure (the first MULMOD rule): zero modulus yields
zero, otherwise the full-width product reduced modulo the modulus. -/
def mulmodW (a b c : Nat) : Nat := if c = 0 then 0 else (a * b) % c

/-- SIGNEXTEND folding closure: byte index at least 31 returns the value
unchanged, otherwise bit 8k+7 is propagated upward. -/
def signextendW (a b : Nat) : Nat :=
  if 31 ≤ a then b
  else if Nat.testBit b (a * 8 + 7) then b ||| notW ((1 <<< (a * 8 + 7)) - 1)
  else b &&& ((1 <<< (a * 8 + 7)) - 1)

/-- SHL folding closure: shift amounts above 255 yield zero. -/
def shlW (a b : Nat) : Nat := if 255 < a then 0 else (b <<< a) % W

/-- SHR folding closure: shift amounts above 255 yield zero. -/
def shrW (a b : Nat) : Nat := if 255 < a then 0 else b >>> a

/-- A simplification rule, from SimplificationRule of the source: a
left-hand pattern, an action building the replacement pattern from the
data of the bound constant placeholders A, B, C, and the removable flag. -/
structure SimplificationRule where
  lhs : Pattern
  rhs : Nat → Nat → Nat → Pattern
  removable : Bool

/-- Shared left-hand side of the two MULMOD constant-folding rules. -/
def mulmodLhs : Pattern := .op3 .MULMOD (.ph .A) (.ph .B) (.ph .C)

/-- First MULMOD constant-folding rule (RuleList.h line 84): the honest
(A * B) mod C with a zero-modulus guard. -/
def ruleMulmodMod : SimplificationRule :=
  ⟨mulmodLhs, fun a b c => .lit (mulmodW a b c), false⟩

/-- Second MULMOD constant-folding rule (RuleList.h line 85): the
truncating A * B, with the same left-hand side as the first. -/
def ruleMulmodMul : SimplificationRule :=
  ⟨mulmodLhs, fun a b _ => .lit (mulW a b), false⟩

/-- DIV constant-folding rule (RuleList.h line 67). -/
def ruleDivFold : SimplificationRule :=
  ⟨.op2 .DIV (.ph .A) (.ph .B), fun a b _ => .lit (divW a b), false⟩

/-- SDIV constant-folding rule (RuleList.h line 68). -/
def ruleSdivFold : SimplificationRule :=
  ⟨.op2 .SDIV (.ph .A) (.ph .B), fun a b _ => .lit (sdivW a b), false⟩

/-- MOD constant-folding rule (RuleList.h line 69). -/
def ruleModFold : SimplificationRule :=
  ⟨.op2 .MOD (.ph .A) (.ph .B), fun a b _ => .lit (modW a b), false⟩

/-- SMOD constant-folding rule (RuleList.h line 70). -/
def ruleSmodFold : SimplificationRule :=
  ⟨.op2 .SMOD (.ph .A) (.ph .B), fun a b _ => .lit (smodW a b), false⟩

/-- EXP constant-folding rule (RuleList.h line 71). -/
def ruleExpFold : SimplificationRule :=
  ⟨.op2 .EXP (.ph .A) (.ph .B), fun a b _ => .lit (expW a b), false⟩

/-- SIGNEXTEND constant-folding rule (RuleList.h lines 86-92). -/
def ruleSignextendFold : SimplificationRule :=
  ⟨.op2 .SIGNEXTEND (.ph .A) (.ph .B), fun a b _ => .lit (signextendW a b), false⟩

/-- SHL constant-folding rule (RuleList.h lines 93-97). -/
def ruleShlFold : SimplificationRule :=
  ⟨.op2 .SHL (.ph .A) (.ph .B), fun a b _ => .lit (shlW a b), false⟩

/-- SHR constant-folding rule (RuleList.h lines 98-102). -/
def ruleShrFold : SimplificationRule :=
  ⟨.op2 .SHR (.ph .A) (.ph .B), fun a b _ => .lit (shrW a b), false⟩

/-- The self-combination rule AND(X, X) with X kept on the right-hand
side (RuleList.h line 145), flagged removable. -/
def ruleAndXX : SimplificationRule :=
  ⟨.op2 .AND (.any .X) (.any .X), fun _ _ _ => .any .X, true⟩

/-- Rules of simplificationRuleListPart1 before the two MULMOD rules:
constant folding for ADD through BYTE and ADDMOD (lines 61-83). -/
def part1Pre : List SimplificationRule := [
  ⟨.op2 .ADD (.ph .A) (.ph .B), fun a b _ => .lit (addW a b), false⟩,
  ⟨.op2 .SADD (.ph .A) (.ph .B), fun a b _ => .lit (addW a b), false⟩,
  ⟨.op2 .MUL (.ph .A) (.ph .B), fun a b _ => .lit (mulW a b), false⟩,
  ⟨.op2 .SMUL (.ph .A) (.ph .B), fun a b _ => .lit (mulW a b), false⟩,
  ⟨.op2 .SUB (.ph .A) (.ph .B), fun a b _ => .lit (subW a b), false⟩,
  ⟨.op2 .SSUB (.ph .A) (.ph .B), fun a b _ => .lit (subW a b), false⟩,
  ruleDivFold,
  ruleSdivFold,
  ruleModFold,
  ruleSmodFold,
  ruleExpFold,
  ⟨.op1 .NOT (.ph .A), fun a _ _ => .lit (notW a), false⟩,
  ⟨.op2 .LT (.ph .A) (.ph .B), fun a b _ => .lit (ltW a b), false⟩,
  ⟨.op2 .GT (.ph .A) (.ph .B), fun a b _ => .lit (gtW a b), false⟩,
  ⟨.op2 .SLT (.ph .A) (.ph .B), fun a b _ => .lit (sltW a b), false⟩,
  ⟨.op2 .SGT (.ph .A) (.ph .B), fun a b _ => .lit (sgtW a b), false⟩,
  ⟨.op2 .EQ (.ph .A) (.ph .B), fun a b _ => .lit (eqW a b), false⟩,
  ⟨.op1 .ISZERO (.ph .A), fun a _ _ => .lit (iszeroW a), false⟩,
  ⟨.op2 .AND (.ph .A) (.ph .B), fun a b _ => .lit (andW a b), false⟩,
  ⟨.op2 .OR (.ph .A) (.ph .B), fun a b _ => .lit (orW a b), false⟩,
  ⟨.op2 .XOR (.ph .A) (.ph .B), fun a b _ => .lit (xorW a b), false⟩,
  ⟨.op2 .BYTE (.ph .A) (.ph .B), fun a b _ => .lit (byteW a b), false⟩,
  ⟨.op3 .ADDMOD (.ph .A) (.ph .B) (.ph .C), fun a b c => .lit (addmodW a b c), false⟩]

/-- Rules of simplificationRuleListPart1 after the two MULMOD rules:
SIGNEXTEND/SHL/SHR folding, the known-constant identity and absorption
rules, the self-combination rules and the logical combinations
(lines 86-174). -/
def part1Post : List SimplificationRule := [
  ruleSignextendFold,
  ruleShlFold,
  ruleShrFold,
  ⟨.op2 .ADD (.any .X) (.lit 0), fun _ _ _ => .any .X, false⟩,
  ⟨.op2 .ADD (.lit 0) (.any .X), fun _ _ _ => .any .X, false⟩,
  ⟨.op2 .SADD (.any .X) (.lit 0), fun _ _ _ => .any .X, false⟩,
  ⟨.op2 .SADD (.lit 0) (.any .X), fun _ _ _ => .any .X, false⟩,
  ⟨.op2 .SUB (.any .X) (.lit 0), fun _ _ _ => .any .X, false⟩,
  ⟨.op2 .SSUB (.any .X) (.lit 0), fun _ _ _ => .any .X, false⟩,
  ⟨.op2 .MUL (.any .X) (.lit 0), fun _ _ _ => .lit 0, true⟩,
  ⟨.op2 .MUL (.lit 0) (.any .X), fun _ _ _ => .lit 0, true⟩,
  ⟨.op2 .MUL (.any .X) (.lit 1), fun _ _ _ => .any .X, false⟩,
  ⟨.op2 .MUL (.lit 1) (.any .X), fun _ _ _ => .any .X, false⟩,
  ⟨.op2 .MUL (.any .X) (.lit (W - 1)), fun _ _ _ => .op2 .SUB (.lit 0) (.any .X), false⟩,
  ⟨.op2 .MUL (.lit (W - 1)) (.any .X), fun _ _ _ => .op2 .SUB (.lit 0) (.any .X), false⟩,
  ⟨.op2 .SMUL (.any .X) (.lit 0), fun _ _ _ => .lit 0, true⟩,
  ⟨.op2 .SMUL (.lit 0) (.any .X), fun _ _ _ => .lit 0, true⟩,
  ⟨.op2 .SMUL (.any .X) (.lit 1), fun _ _ _ => .any .X, false⟩,
  ⟨.op2 .SMUL (.lit 1) (.any .X), fun _ _ _ => .any .X, false⟩,
  ⟨.op2 .SMUL (.any .X) (.lit (W - 1)), fun _ _ _ => .op2 .SSUB (.lit 0) (.any .X), false⟩,
  ⟨.op2 .SMUL (.lit (W - 1)) (.any .X), fun _ _ _ => .op2 .SSUB (.lit 0) (.any .X), false⟩,
  ⟨.op2 .DIV (.any .X) (.lit 0), fun _ _ _ => .lit 0, true⟩,
  ⟨.op2 .DIV (.lit 0) (.any .X), fun _ _ _ => .lit 0, true⟩,
  ⟨.op2 .DIV (.any .X) (.lit 1), fun _ _ _ => .any .X, false⟩,
  ⟨.op2 .SDIV (.any .X) (.lit 0), fun _ _ _ => .lit 0, true⟩,
  ⟨.op2 .SDIV (.lit 0) (.any .X), fun _ _ _ => .lit 0, true⟩,
  ⟨.op2 .SDIV (.any .X) (.lit 1), fun _ _ _ => .any .X, false⟩,
  ⟨.op2 .AND (.any .X) (.lit (W - 1)), fun _ _ _ => .any .X, false⟩,
  ⟨.op2 .AND (.lit (W - 1)) (.any .X), fun _ _ _ => .any .X, false⟩,
  ⟨.op2 .AND (.any .X) (.lit 0), fun _ _ _ => .lit 0, true⟩,
  ⟨.op2 .AND (.lit 0) (.any .X), fun _ _ _ => .lit 0, true⟩,
  ⟨.op2 .OR (.any .X) (.lit 0), fun _ _ _ => .any .X, false⟩,
  ⟨.op2 .OR (.lit 0) (.any .X), fun _ _ _ => .any .X, false⟩,
  ⟨.op2 .OR (.any .X) (.lit (W - 1)), fun _ _ _ => .lit (W - 1), true⟩,
  ⟨.op2 .OR (.lit (W - 1)) (.any .X), fun _ _ _ => .lit (W - 1), true⟩,
  ⟨.op2 .XOR (.any .X) (.lit 0), fun _ _ _ => .any .X, false⟩,
  ⟨.op2 .XOR (.lit 0) (.any .X), fun _ _ _ => .any .X, false⟩,
  ⟨.op2 .MOD (.any .X) (.lit 0), fun _ _ _ => .lit 0, true⟩,
  ⟨.op2 .MOD (.lit 0) (.any .X), fun _ _ _ => .lit 0, true⟩,
  ⟨.op2 .EQ (.any .X) (.lit 0), fun _ _ _ => .op1 .ISZERO (.any .X), false⟩,
  ⟨.op2 .EQ (.lit 0) (.any .X), fun _ _ _ => .op1 .ISZERO (.any .X), false⟩,
  ruleAndXX,
  ⟨.op2 .OR (.any .X) (.any .X), fun _ _ _ => .any .X, true⟩,
  ⟨.op2 .XOR (.any .X) (.any .X), fun _ _ _ => .lit 0, true⟩,
  ⟨.op2 .SUB (.any .X) (.any .X), fun _ _ _ => .lit 0, true⟩,
  ⟨.op2 .SSUB (.any .X) (.any .X), fun _ _ _ => .lit 0, true⟩,
  ⟨.op2 .EQ (.any .X) (.any .X), fun _ _ _ => .lit 1, true⟩,
  ⟨.op2 .LT (.any .X) (.any .X), fun _ _ _ => .lit 0, true⟩,
  ⟨.op2 .SLT (.any .X) (.any .X), fun _ _ _ => .lit 0, true⟩,
  ⟨.op2 .GT (.any .X) (.any .X), fun _ _ _ => .lit 0, true⟩,
  ⟨.op2 .SGT (.any .X) (.any .X), fun _ _ _ => .lit 0, true⟩,
  ⟨.op2 .MOD (.any .X) (.any .X), fun _ _ _ => .lit 0, true⟩,
  ⟨.op1 .NOT (.op1 .NOT (.any .X)), fun _ _ _ => .any .X, false⟩,
  ⟨.op2 .XOR (.any .X) (.op2 .XOR (.any .X) (.any .Y)), fun _ _ _ => .any .Y, true⟩,
  ⟨.op2 .XOR (.any .X) (.op2 .XOR (.any .Y) (.any .X)), fun _ _ _ => .any .Y, true⟩,
  ⟨.op2 .XOR (.op2 .XOR (.any .X) (.any .Y)) (.any .X), fun _ _ _ => .any .Y, true⟩,
  ⟨.op2 .XOR (.op2 .XOR (.any .Y) (.any .X)) (.any .X), fun _ _ _ => .any .Y, true⟩,
  ⟨.op2 .OR (.any .X) (.op2 .AND (.any .X) (.any .Y)), fun _ _ _ => .any .X, true⟩,
  ⟨.op2 .OR (.any .X) (.op2 .AND (.any .Y) (.any .X)), fun _ _ _ => .any .X, true⟩,
  ⟨.op2 .OR (.op2 .AND (.any .X) (.any .Y)) (.any .X), fun _ _ _ => .any .X, true⟩,
  ⟨.op2 .OR (.op2 .AND (.any .Y) (.any .X)) (.any .X), fun _ _ _ => .any .X, true⟩,
  ⟨.op2 .AND (.any .X) (.op2 .OR (.any .X) (.any .Y)), fun _ _ _ => .any .X, true⟩,
  ⟨.op2 .AND (.any .X) (.op2 .OR (.any .Y) (.any .X)), fun _ _ _ => .any .X, true⟩,
  ⟨.op2 .AND (.op2 .OR (.any .X) (.any .Y)) (.any .X), fun _ _ _ => .any .X, true⟩,
  ⟨.op2 .AND (.op2 .OR (.any .Y) (.any .X)) (.any .X), fun _ _ _ => .any .X, true⟩,
  ⟨.op2 .AND (.any .X) (.op1 .NOT (.any .X)), fun _ _ _ => .lit 0, true⟩,
  ⟨.op2 .AND (.op1 .NOT (.any .X)) (.any .X), fun _ _ _ => .lit 0, true⟩,
  ⟨.op2 .OR (.any .X) (.op1 .NOT (.any .X)), fun _ _ _ => .lit (W - 1), true⟩,
  ⟨.op2 .OR (.op1 .NOT (.any .X)) (.any .X), fun _ _ _ => .lit (W - 1), true⟩]

/-- simplificationRuleListPart1 of the source, with the two MULMOD rules
kept at their source positions (catalog indices 23 and 24). -/
def simplificationRuleListPart1 : List SimplificationRule :=
  part1Pre ++ ruleMulmodMod :: ruleMulmodMul :: part1Post

/-- One generated power-of-two MOD rule (RuleList.h lines 194-202):
MOD(X, 2 ^ i) is rewritten to AND(X, 2 ^ i - 1). -/
def mod2Rule (i : Nat) : SimplificationRule :=
  ⟨.op2 .MOD (.any .X) (.lit (2 ^ i)),
   fun _ _ _ => .op2 .AND (.any .X) (.lit (2 ^ i - 1)), false⟩

/-- The 256 generated power-of-two MOD rules, in loop order. -/
def part2Mod : List SimplificationRule := (List.range 256).map mod2Rule

/-- The 160-bit address mask 2 ^ 160 - 1 (RuleList.h line 211). -/
def addrMask : Nat := 2 ^ 160 - 1

/-- The two address-width masking rules of one address-producing opcode
(RuleList.h lines 212-221). -/
def addrGroup (o : Opcode) : List SimplificationRule := [
  ⟨.op2 .AND (.op0 o) (.lit addrMask), fun _ _ _ => .op0 o, false⟩,
  ⟨.op2 .AND (.lit addrMask) (.op0 o), fun _ _ _ => .op0 o, false⟩]

/-- Address-width masking rules, in loop order ADDRESS, CALLER, ORIGIN,
COINBASE. -/
def part2Addr : List SimplificationRule :=
  addrGroup .ADDRESS ++ addrGroup .CALLER ++ addrGroup .ORIGIN ++ addrGroup .COINBASE

/-- One boolean double-negation rule (RuleList.h lines 232-236). -/
def dblNegRule (o : Opcode) : SimplificationRule :=
  ⟨.op1 .ISZERO (.op1 .ISZERO (.op2 o (.any .X) (.any .Y))),
   fun _ _ _ => .op2 o (.any .X) (.any .Y), false⟩

/-- Boolean double-negation rules, in loop order EQ, LT, SLT, GT, SGT. -/
def part2DblNeg : List SimplificationRule :=
  [dblNegRule .EQ, dblNegRule .LT, dblNegRule .SLT, dblNegRule .GT, dblNegRule .SGT]

/-- Triple-ISZERO collapse rule (RuleList.h lines 238-242). -/
def ruleIsZero3 : SimplificationRule :=
  ⟨.op1 .ISZERO (.op1 .ISZERO (.op1 .ISZERO (.any .X))),
   fun _ _ _ => .op1 .ISZERO (.any .X), false⟩

/-- ISZERO-of-XOR rule (RuleList.h lines 244-248). -/
def ruleIsZeroXor : SimplificationRule :=
  ⟨.op1 .ISZERO (.op2 .XOR (.any .X) (.any .Y)),
   fun _ _ _ => .op2 .EQ (.any .X) (.any .Y), false⟩

/-- The four associativity rules for one commutative opcode, semantic
combiner and inner-operand order xa (RuleList.h lines 266-289). -/
def assocGroup (o : Opcode) (f : Nat → Nat → Nat) (xa : Pattern × Pattern) :
    List SimplificationRule := [
  ⟨.op2 o (.op2 o xa.1 xa.2) (.ph .B),
   fun a b _ => .op2 o (.any .X) (.lit (f a b)), false⟩,
  ⟨.op2 o (.op2 o xa.1 xa.2) (.any .Y),
   fun _ _ _ => .op2 o (.op2 o (.any .X) (.any .Y)) (.ph .A), false⟩,
  ⟨.op2 o (.ph .B) (.op2 o xa.1 xa.2),
   fun a b _ => .op2 o (.any .X) (.lit (f a b)), false⟩,
  ⟨.op2 o (.any .Y) (.op2 o xa.1 xa.2),
   fun _ _ _ => .op2 o (.op2 o (.any .Y) (.any .X)) (.ph .A), false⟩]

/-- The inner-operand order (X, A). -/
def xaXA : Pattern × Pattern := (.any .X, .ph .A)

/-- The inner-operand order (A, X). -/
def xaAX : Pattern × Pattern := (.ph .A, .any .X)

/-- The associativity and commutativity constant-sinking family, in loop
order over the seven opcode and combiner pairs and both inner orders
(RuleList.h lines 251-290). -/
def part2Assoc : List SimplificationRule :=
  assocGroup .ADD addW xaXA ++ (assocGroup .ADD addW xaAX ++
  (assocGroup .SADD addW xaXA ++ (assocGroup .SADD addW xaAX ++
  (assocGroup .MUL mulW xaXA ++ (assocGroup .MUL mulW xaAX ++
  (assocGroup .SMUL mulW xaXA ++ (assocGroup .SMUL mulW xaAX ++
  (assocGroup .AND andW xaXA ++ (assocGroup .AND andW xaAX ++
  (assocGroup .OR orW xaXA ++ (assocGroup .OR orW xaAX ++
  (assocGroup .XOR xorW xaXA ++ assocGroup .XOR xorW xaAX))))))))))))

/-- The two SUB-of-ADD constant-sinking rules for one add and sub opcode
pair and one inner order xa (RuleList.h lines 300-316). -/
def addSubXaGroup (ad sb : Opcode) (xa : Pattern × Pattern) :
    List SimplificationRule := [
  ⟨.op2 sb (.op2 ad xa.1 xa.2) (.ph .B),
   fun a b _ =>
     if a < b then .op2 sb (.any .X) (.lit (subW b a))
     else .op2 ad (.any .X) (.lit (subW a b)), false⟩,
  ⟨.op2 sb (.ph .B) (.op2 ad xa.1 xa.2),
   fun a b _ => .op2 sb (.lit (subW b a)) (.any .X), false⟩]

/-- The four ADD-of-SUB and SUB-of-SUB rules of one add and sub pair
(RuleList.h lines 318-352). -/
def addSubMain (ad sb : Opcode) : List SimplificationRule := [
  ⟨.op2 ad (.op2 sb (.any .X) (.ph .A)) (.ph .B),
   fun a b _ =>
     if b < a then .op2 sb (.any .X) (.lit (subW a b))
     else .op2 ad (.any .X) (.lit (subW b a)), false⟩,
  ⟨.op2 ad (.ph .B) (.op2 sb (.any .X) (.ph .A)),
   fun a b _ =>
     if b < a then .op2 sb (.any .X) (.lit (subW a b))
     else .op2 ad (.any .X) (.lit (subW b a)), false⟩,
  ⟨.op2 sb (.op2 sb (.any .X) (.ph .A)) (.ph .B),
   fun a b _ => .op2 sb (.any .X) (.lit (addW a b)), false⟩,
  ⟨.op2 sb (.op2 sb (.ph .A) (.any .X)) (.ph .B),
   fun a b _ => .op2 sb (.lit (subW a b)) (.any .X), false⟩]

/-- The four move-constant-across-subtraction rules of one add and sub
pair (RuleList.h lines 355-375). -/
def addSubMove (ad sb : Opcode) : List SimplificationRule := [
  ⟨.op2 sb (.op2 ad (.any .X) (.ph .A)) (.any .Y),
   fun _ _ _ => .op2 ad (.op2 sb (.any .X) (.any .Y)) (.ph .A), false⟩,
  ⟨.op2 sb (.op2 ad (.ph .A) (.any .X)) (.any .Y),
   fun _ _ _ => .op2 ad (.op2 sb (.any .X) (.any .Y)) (.ph .A), false⟩,
  ⟨.op2 sb (.any .X) (.op2 ad (.any .Y) (.ph .A)),
   fun _ _ _ => .op2 sb (.op2 sb (.any .X) (.any .Y)) (.ph .A), false⟩,
  ⟨.op2 sb (.any .X) (.op2 ad (.ph .A) (.any .Y)),
   fun _ _ _ => .op2 sb (.op2 sb (.any .X) (.any .Y)) (.ph .A), false⟩]

/-- The ADD and SUB interaction family for both opcode pairs, in source
push order (RuleList.h lines 291-376). -/
def part2AddSub : List SimplificationRule :=
  (addSubXaGroup .ADD .SUB xaXA ++ (addSubXaGroup .ADD .SUB xaAX ++
    (addSubMain .ADD .SUB ++ addSubMove .ADD .SUB))) ++
  (addSubXaGroup .SADD .SSUB xaXA ++ (addSubXaGroup .SADD .SSUB xaAX ++
    (addSubMain .SADD .SSUB ++ addSubMove .SADD .SSUB)))

/-- simplificationRuleListPart2 of the source, in push order. -/
def simplificationRuleListPart2 : List SimplificationRule :=
  part2Mod ++ (part2Addr ++ (part2DblNeg ++ ([ruleIsZero3] ++ ([ruleIsZeroXor] ++
    (part2Assoc ++ part2AddSub)))))

/-- simplificationRuleList of the source: part 1 followed by part 2. -/
def simplificationRuleList : List SimplificationRule :=
  simplificationRuleListPart1 ++ simplificationRuleListPart2

/-- Word semantics of the unary opcodes, from the folding closures. -/
def evalOp1 (o : Opcode) (v : Nat) : Option Nat :=
  match o with
  | .NOT => some (notW v)
  | .ISZERO => some (iszeroW v)
  | _ => none

/-- Word semantics of the binary opcodes, from the folding closures. -/
def evalOp2 (o : Opcode) (u v : Nat) : Option Nat :=
  match o with
  | .ADD => some (addW u v)
  | .SADD => some (addW u v)
  | .MUL => some (mulW u v)
  | .SMUL => some (mulW u v)
  | .SUB => some (subW u v)
  | .SSUB => some (subW u v)
  | .DIV => some (divW u v)
  | .SDIV => some (sdivW u v)
  | .MOD => some (modW u v)
  | .SMOD => some (smodW u v)
  | .EXP => some (expW u v)
  | .LT => some (ltW u v)
  | .GT => some (gtW u v)
  | .SLT => some (sltW u v)
  | .SGT => some (sgtW u v)
  | .EQ => some (eqW u v)
  | .AND => some (andW u v)
  | .OR => some (orW u v)
  | .XOR => some (xorW u v)
  | .BYTE => some (byteW u v)
  | .SIGNEXTEND => some (signextendW u v)
  | .SHL => some (shlW u v)
  | .SHR => some (shrW u v)
  | _ => none

/-- Word semantics of the ternary opcodes, from the folding closures. -/
def evalOp3 (o : Opcode) (u v w : Nat) : Option Nat :=
  match o with
  | .ADDMOD => some (addmodW u v w)
  | .MULMOD => some (mulmodW u v w)
  | _ => none

/-- Modelled from the spec: reference evaluation of a pattern under the
Word semantics, given word values for the placeholders A, B, C, X, Y
(section 8, semantic preservation and evaluator agreement).  The opcode
semantics is taken from the folding closures of the source; opcodes
without value semantics (the address-producing ones) do not evaluate. -/
def evalPat : Pattern → Nat → Nat → Nat → Nat → Nat → Option Nat
  | .lit w, _, _, _, _, _ => some w
  | .ph .A, a, _, _, _, _ => some a
  | .ph .B, _, b, _, _, _ => some b
  | .ph .C, _, _, c, _, _ => some c
  | .any .X, _, _, _, x, _ => some x
  | .any .Y, _, _, _, _, y => some y
  | .op0 _, _, _, _, _, _ => none
  | .op1 o p, a, b, c, x, y => (evalPat p a b c x y).bind (evalOp1 o)
  | .op2 o p q, a, b, c, x, y =>
    (evalPat p a b c x y).bind fun u =>
      (evalPat q a b c x y).bind fun v => evalOp2 o u v
  | .op3 o p q r, a, b, c, x, y =>
    (evalPat p a b c x y).bind fun u =>
      (evalPat q a b c x y).bind fun v =>
        (evalPat r a b c x y).bind fun w2 => evalOp3 o u v w2

/-- Modelled from the spec: a binding produced by the matcher, one
optional slot per placeholder identity (section 4.2). -/
structure Binding where
  a : Option Nat
  b : Option Nat
  c : Option Nat
  x : Option ExprNode
  y : Option ExprNode
deriving DecidableEq, Repr

/-- Modelled from the spec: the empty binding the matcher starts from. -/
def emptyBinding : Binding := ⟨none, none, none, none, none⟩

/-- Modelled from the spec: bind a constant-only placeholder to a word,
enforcing agreement with a previous binding of the same identity. -/
def bindConst (β : Binding) (p : ConstPH) (w : Nat) : Option Binding :=
  match p with
  | .A =>
    match β.a with
    | none => some { β with a := some w }
    | some w2 => if w2 = w then some β else none
  | .B =>
    match β.b with
    | none => some { β with b := some w }
    | some w2 => if w2 = w then some β else none
  | .C =>
    match β.c with
    | none => some { β with c := some w }
    | some w2 => if w2 = w then some β else none

/-- Modelled from the spec: bind an arbitrary-expression placeholder,
enforcing structural equality with a previous binding (section 4.2). -/
def bindAny (β : Binding) (p : AnyPH) (e : ExprNode) : Option Binding :=
  match p with
  | .X =>
    match β.x with
    | none => some { β with x := some e }
    | some e2 => if e2 = e then some β else none
  | .Y =>
    match β.y with
    | none => some { β with y := some e }
    | some e2 => if e2 = e then some β else none

/-- Modelled from the spec: recursive-descent matcher (section 4.2).
Literal constants match only the identical constant, constant-only
placeholders match only constants, expression placeholders match
anything, and opcode patterns match nodes with the same opcode,
children matched left to right. -/
def matchP : Pattern → ExprNode → Binding → Option Binding
  | .lit w, .const w2, β => if w = w2 then some β else none
  | .ph p, .const w, β => bindConst β p w
  | .any p, e, β => bindAny β p e
  | .op0 o, .op0 o2, β => if o = o2 then some β else none
  | .op1 o p, .op1 o2 e, β => if o = o2 then matchP p e β else none
  | .op2 o p q, .op2 o2 e f, β =>
    if o = o2 then (matchP p e β).bind (matchP q f) else none
  | .op3 o p q r, .op3 o2 e f g, β =>
    if o = o2 then ((matchP p e β).bind (matchP q f)).bind (matchP r g) else none
  | _, _, _ => none

/-- Modelled from the spec: look up a constant placeholder in a binding. -/
def constOf (β : Binding) (p : ConstPH) : Option Nat :=
  match p with
  | .A => β.a
  | .B => β.b
  | .C => β.c

/-- Modelled from the spec: look up an expression placeholder. -/
def anyOf (β : Binding) (p : AnyPH) : Option ExprNode :=
  match p with
  | .X => β.x
  | .Y => β.y

/-- Modelled from the spec: instantiate a replacement pattern under a
binding, producing the replacement expression (section 4.4). -/
def substitute : Pattern → Binding → Option ExprNode
  | .lit w, _ => some (.const w)
  | .ph p, β => (constOf β p).map .const
  | .any p, β => anyOf β p
  | .op0 o, _ => some (.op0 o)
  | .op1 o p, β => (substitute p β).map (.op1 o)
  | .op2 o p q, β =>
    (substitute p β).bind fun e => (substitute q β).map (.op2 o e)
  | .op3 o p q r, β =>
    (substitute p β).bind fun e =>
      (substitute q β).bind fun f => (substitute r β).map (.op3 o e f)

/-- Whether an expression placeholder occurs in a pattern. -/
def anyMem : Pattern → AnyPH → Bool
  | .any p, q => p = q
  | .op1 _ p, q => anyMem p q
  | .op2 _ p r, q => anyMem p q || anyMem r q
  | .op3 _ p r s, q => anyMem p q || anyMem r q || anyMem s q
  | _, _ => false

/-- Number of occurrences of an expression placeholder in a pattern. -/
def anyCount : Pattern → AnyPH → Nat
  | .any p, q => if p = q then 1 else 0
  | .op1 _ p, q => anyCount p q
  | .op2 _ p r, q => anyCount p q + anyCount r q
  | .op3 _ p r s, q => anyCount p q + anyCount r q + anyCount s q
  | _, _ => 0

/-- Left-to-right sequence of expression placeholder occurrences in a
pattern. -/
def anySeq : Pattern → List AnyPH
  | .any p => [p]
  | .op1 _ p => anySeq p
  | .op2 _ p q => anySeq p ++ anySeq q
  | .op3 _ p q r => anySeq p ++ anySeq q ++ anySeq r
  | _ => []

/-- Whether a left-hand side is fully constant-only in the sense of the
constant-folding family: an opcode whose children are all constant-only
placeholders. -/
def isConstFoldLhs : Pattern → Bool
  | .op1 _ (.ph _) => true
  | .op2 _ (.ph _) (.ph _) => true
  | .op3 _ (.ph _) (.ph _) (.ph _) => true
  | _ => false

/-- Modelled from the spec: the removability side condition of the
rewriter (section 4.4): every expression placeholder that was bound
during the match but is not referenced on the instantiated right-hand
side must satisfy the caller-supplied side-effect-freedom predicate. -/
def removableOk (β : Binding) (rp : Pattern) (safe : ExprNode → Bool) : Bool :=
  (match β.x with
   | none => true
   | some e => anyMem rp .X || safe e) &&
  (match β.y with
   | none => true
   | some e => anyMem rp .Y || safe e)

/-- Modelled from the spec: attempt one rule on a subject (section 4.4).
On a match, the action is evaluated on the bound constant data; a
removable rule is skipped when the discarded subtrees are not known
side-effect-free; otherwise the instantiated replacement is returned. -/
def tryRule (r : SimplificationRule) (e : ExprNode) (safe : ExprNode → Bool) :
    Option ExprNode :=
  match matchP r.lhs e emptyBinding with
  | none => none
  | some β =>
    let rp := r.rhs (β.a.getD 0) (β.b.getD 0) (β.c.getD 0)
    if r.removable && !removableOk β rp safe then none
    else substitute rp β

/-- Modelled from the spec: the rewriter walks the catalog and applies
the first rule that matches and passes the removability check
(sections 4.3 and 4.4). -/
def applyRules : List SimplificationRule → ExprNode → (ExprNode → Bool) → Option ExprNode
  | [], _, _ => none
  | r :: rs, e, safe =>
    match tryRule r e safe with
    | some e2 => some e2
    | none => applyRules rs e safe

/-- The SUB-of-ADD constant-sinking rule with inner order (X, A), the
first rule pushed by the ADD and SUB loop (RuleList.h lines 300-310). -/
def ruleSubAddXA : SimplificationRule :=
  ⟨.op2 .SUB (.op2 .ADD (.any .X) (.ph .A)) (.ph .B),
   fun a b _ =>
     if a < b then .op2 .SUB (.any .X) (.lit (subW b a))
     else .op2 .ADD (.any .X) (.lit (subW a b)), false⟩

/-- The SUB-of-ADD constant-sinking rule with inner order (A, X)
(RuleList.h lines 300-310, second iteration of the xa loop). -/
def ruleSubAddAX : SimplificationRule :=
  ⟨.op2 .SUB (.op2 .ADD (.ph .A) (.any .X)) (.ph .B),
   fun a b _ =>
     if a < b then .op2 .SUB (.any .X) (.lit (subW b a))
     else .op2 .ADD (.any .X) (.lit (subW a b)), false⟩

/-- Indexing an appended list inside its left part. -/
theorem listGetAppendLeft {α : Type} :
    ∀ (l m : List α) (i : Nat) (h : i < l.length) (h2 : i < (l ++ m).length),
      (l ++ m).get ⟨i, h2⟩ = l.get ⟨i, h⟩
  | _ :: _, _, 0, _, _ => rfl
  | _ :: l, m, i + 1, h, h2 =>
    listGetAppendLeft l m i (Nat.lt_of_succ_lt_succ h) (Nat.lt_of_succ_lt_succ h2)

/-- Every rule of part 2 of the catalog carries removable = false. -/
theorem part2_removable_eq_false :
    ∀ r ∈ simplificationRuleListPart2, r.removable = false := by
  have hall : simplificationRuleListPart2.all (fun r => !r.removable) = true := by decide
  intro r hr
  have h2 := List.all_eq_true.mp hall r hr
  simpa using h2

/-- Dropping the second of two adjacent rules from a catalog does not
change the rewriter when failure of the first forces failure of the
second. -/
theorem applyRules_skip (pre post : List SimplificationRule)
    (r r2 : SimplificationRule) (e : ExprNode) (safe : ExprNode → Bool)
    (hkey : tryRule r e safe = none → tryRule r2 e safe = none) :
    applyRules (pre ++ r :: r2 :: post) e safe =
      applyRules (pre ++ r :: post) e safe := by
  induction pre with
  | nil =>
    simp only [List.nil_append, applyRules]
    cases htr : tryRule r e safe with
    | some o => rfl
    | none => rw [hkey htr]
  | cons p pre ih =>
    simp only [List.cons_append, applyRules]
    cases htr : tryRule p e safe with
    | some o => rfl
    | none => simpa using ih

/-- Failure of the first MULMOD folding rule on a subject forces failure
of the second, since the two rules share their left-hand side and both
carry removable = false. -/
theorem mulmod_tryRule_key (e : ExprNode) (safe : ExprNode → Bool)
    (h : tryRule ruleMulmodMod e safe = none) :
    tryRule ruleMulmodMul e safe = none := by
  cases hm : matchP mulmodLhs e emptyBinding with
  | none => simp [tryRule, ruleMulmodMul, hm]
  | some β => simp [tryRule, ruleMulmodMod, hm, substitute] at h

/-- Words are smaller than the modulus after reduction. -/
theorem addW_lt (a b : Nat) : addW a b < W := Nat.mod_lt _ (Nat.two_pow_pos 256)

/-- Words are smaller than the modulus after reduction. -/
theorem subW_lt (a b : Nat) : subW a b < W := Nat.mod_lt _ (Nat.two_pow_pos 256)

/-- Cast of u256 addition into the ring of integers modulo 2 ^ 256. -/
theorem castAddW (a b : Nat) :
    ((addW a b : Nat) : ZMod W) = (a : ZMod W) + (b : ZMod W) := by
  unfold addW
  rw [ZMod.natCast_mod]
  push_cast
  ring

/-- Cast of u256 subtraction into the ring of integers modulo 2 ^ 256. -/
theorem castSubW (a b : Nat) :
    ((subW a b : Nat) : ZMod W) = (a : ZMod W) - (b : ZMod W) := by
  unfold subW
  rw [ZMod.natCast_mod]
  have h1 : b % W ≤ W := le_of_lt (Nat.mod_lt _ (Nat.two_pow_pos 256))
  rw [Nat.cast_add, Nat.cast_sub h1, ZMod.natCast_self, ZMod.natCast_mod]
  ring

/-- Two reduced words with equal casts into the modular ring are equal. -/
theorem natEqOfCastW {a b : Nat} (ha : a < W) (hb : b < W)
    (h : (a : ZMod W) = (b : ZMod W)) : a = b := by
  have h2 := congrArg ZMod.val h
  rwa [ZMod.val_natCast_of_lt ha, ZMod.val_natCast_of_lt hb] at h2

/-- Subtracting the difference equals subtracting after adding: the value
computed by the SUB branch of the SUB-of-ADD sinking rule. -/
theorem subW_subW_eq (x a b : Nat) : subW x (subW b a) = subW (addW x a) b :=
  natEqOfCastW (subW_lt _ _) (subW_lt _ _)
    (by rw [castSubW, castSubW, castSubW, castAddW]; ring)

/-- Adding the difference equals subtracting after adding: the value
computed by the ADD branch of the SUB-of-ADD sinking rule. -/
theorem addW_subW_eq (x a b : Nat) : addW x (subW a b) = subW (addW x a) b :=
  natEqOfCastW (addW_lt _ _) (subW_lt _ _)
    (by rw [castAddW, castSubW, castSubW, castAddW]; ring)

/-- Remainder by a power of two is a bit mask. -/
theorem mod_two_pow_eq_land (x i : Nat) : x % 2 ^ i = x &&& (2 ^ i - 1) := by
  apply Nat.eq_of_testBit_eq
  intro j
  rw [Nat.testBit_land, Nat.testBit_mod_two_pow, Nat.testBit_two_pow_sub_one,
    Bool.and_comm]

/-- The u256 complement of the low mask is the high mask. -/
theorem notW_low_mask (t : Nat) (ht : t ≤ 256) :
    notW ((1 <<< t) - 1) = (2 ^ (256 - t) - 1) <<< t := by
  have hp := Nat.two_pow_pos t
  have h2t : 2 ^ t ≤ W := Nat.pow_le_pow_right (by norm_num) ht
  have hWt : 2 ^ (256 - t) * 2 ^ t = W := by
    rw [← pow_add]
    congr 1
    omega
  unfold notW
  rw [Nat.shiftLeft_eq, Nat.shiftLeft_eq, one_mul]
  have hmod : (2 ^ t - 1) % W = 2 ^ t - 1 := Nat.mod_eq_of_lt (by omega)
  rw [hmod, Nat.sub_mul, hWt, one_mul]
  omega

/-- Bit characterization of sign extension below byte index 31: bits up
to the sign bit are kept and all higher bits copy the sign bit. -/
theorem signextendW_testBit (k v i : Nat) (hk : k < 31) (hi : i < 256) :
    (signextendW k v).testBit i =
      if i ≤ k * 8 + 7 then v.testBit i else v.testBit (k * 8 + 7) := by
  have hnk : ¬ 31 ≤ k := by omega
  have ht256 : k * 8 + 7 < 256 := by omega
  rw [signextendW, if_neg hnk]
  by_cases hb : Nat.testBit v (k * 8 + 7)
  · rw [if_pos hb, Nat.testBit_lor, notW_low_mask _ (le_of_lt ht256),
      Nat.testBit_shiftLeft, Nat.testBit_two_pow_sub_one]
    rcases Nat.lt_trichotomy i (k * 8 + 7) with h | h | h
    · have h1 : ¬ i ≥ k * 8 + 7 := by omega
      simp [h1, Nat.le_of_lt h]
    · rw [h]
      have h1 : (0 : Nat) < 256 - (k * 8 + 7) := by omega
      simp [hb, h1]
    · have h1 : ¬ i ≤ k * 8 + 7 := by omega
      have h2 : i ≥ k * 8 + 7 := by omega
      simp [h1, h2, hb]
      exact Or.inr (by omega)
  · rw [if_neg hb, Nat.testBit_land, Nat.shiftLeft_eq, one_mul,
      Nat.testBit_two_pow_sub_one]
    rcases Nat.lt_trichotomy i (k * 8 + 7) with h | h | h
    · simp [h, Nat.le_of_lt h]
    · rw [h]
      simp [hb]
    · have h1 : ¬ i ≤ k * 8 + 7 := by omega
      have h2 : ¬ i < k * 8 + 7 := by omega
      simp [h1, h2, hb]

/-- Indexing an appended list past its left part lands in the right
part. -/
theorem getAppendMemRight {α : Type} :
    ∀ (l m : List α) (i : Nat) (h3 : l.length ≤ i) (h : i < (l ++ m).length),
      (l ++ m).get ⟨i, h⟩ ∈ m
  | [], m, i, _, h => List.get_mem m i h
  | _ :: _, _, 0, h3, _ => absurd h3 (Nat.not_succ_le_zero _)
  | _ :: l, m, i + 1, h3, h =>
    getAppendMemRight l m i (Nat.le_of_succ_le_succ h3) (Nat.lt_of_succ_lt_succ h)

/-- Placeholder-order preservation for the four associativity rules of
one opcode, one combiner and one inner operand order. -/
theorem assocGroup_anySeq (o : Opcode) (f : Nat → Nat → Nat)
    (xa : Pattern × Pattern) (hxa : xa = xaXA ∨ xa = xaAX) :
    ∀ r ∈ assocGroup o f xa, ∀ a b c, anySeq (r.rhs a b c) = anySeq r.lhs := by
  rcases hxa with rfl | rfl <;>
    · intro r hr a b c
      simp only [assocGroup, xaXA, xaAX, List.mem_cons, List.not_mem_nil,
        or_false] at hr
      rcases hr with rfl | rfl | rfl | rfl <;> rfl

/-- C1: the semantic-preservation-on-constants invariant fails on the
code.  The second MULMOD rule sits at catalog index 24, its left-hand
side MULMOD(A, B, C) is fully constant-only, yet at the binding
A = 2, B = 2, C = 3 the left-hand side evaluates to 1 under the Word
semantics while the replacement built by the rule evaluates to 4. -/
theorem C1_mulmod_trunc_violates_preservation :
    simplificationRuleList.get ⟨24, by decide⟩ = ruleMulmodMul ∧
    isConstFoldLhs ruleMulmodMul.lhs = true ∧
    evalPat ruleMulmodMul.lhs 2 2 3 0 0 = some 1 ∧
    evalPat (ruleMulmodMul.rhs 2 2 3) 2 2 3 0 0 = some 4 :=
  ⟨rfl, by decide, by decide, by decide⟩

/-- C7: the DIV, SDIV, MOD and SMOD constant-folding rules, at catalog
indices 6 to 9, produce the constant 0 whenever the bound divisor B is
0, and the rewriter folds DIV(10, 0) to the constant 0. -/
theorem C7_division_by_zero_folds_to_zero (a c : Nat) (s : ExprNode → Bool) :
    simplificationRuleList.get ⟨6, by decide⟩ = ruleDivFold ∧
    simplificationRuleList.get ⟨7, by decide⟩ = ruleSdivFold ∧
    simplificationRuleList.get ⟨8, by decide⟩ = ruleModFold ∧
    simplificationRuleList.get ⟨9, by decide⟩ = ruleSmodFold ∧
    ruleDivFold.rhs a 0 c = .lit 0 ∧
    ruleSdivFold.rhs a 0 c = .lit 0 ∧
    ruleModFold.rhs a 0 c = .lit 0 ∧
    ruleSmodFold.rhs a 0 c = .lit 0 ∧
    applyRules simplificationRuleList (.op2 .DIV (.const 10) (.const 0)) s =
      some (.const 0) :=
  ⟨rfl, rfl, rfl, rfl, rfl, rfl, rfl, rfl, rfl⟩

/-- C8: SHL folding yields 0 for shift amounts above 255 and the shifted
value reduced modulo 2 ^ 256 otherwise; SHR yields 0 above 255 and the
logical right shift otherwise; and the rewriter folds SHL(256, 1) to the
constant 0. -/
theorem C8_shift_folding (n v c : Nat) (s : ExprNode → Bool) :
    simplificationRuleList.get ⟨26, by decide⟩ = ruleShlFold ∧
    simplificationRuleList.get ⟨27, by decide⟩ = ruleShrFold ∧
    ruleShlFold.rhs n v c = .lit (if 255 < n then 0 else (v * 2 ^ n) % W) ∧
    ruleShrFold.rhs n v c = .lit (if 255 < n then 0 else v / 2 ^ n) ∧
    applyRules simplificationRuleList (.op2 .SHL (.const 256) (.const 1)) s =
      some (.const 0) := by
  refine ⟨rfl, rfl, ?_, ?_, rfl⟩
  · simp only [ruleShlFold, shlW, Nat.shiftLeft_eq]
  · simp only [ruleShrFold, shrW, Nat.shiftRight_eq_div_pow]

/-- C10: the EXP constant-folding rule, at catalog index 10, yields the
constant 1 whenever the exponent is 0, whatever the base; in
particular the rewriter folds EXP(0, 0) to the constant 1. -/
theorem C10_exp_zero_folds_to_one (a c : Nat) (s : ExprNode → Bool) :
    simplificationRuleList.get ⟨10, by decide⟩ = ruleExpFold ∧
    ruleExpFold.rhs a 0 c = .lit 1 ∧
    applyRules simplificationRuleList (.op2 .EXP (.const 0) (.const 0)) s =
      some (.const 1) :=
  ⟨rfl, rfl, rfl⟩

/-- C3: the catalog contains exactly two rules whose left-hand side is
MULMOD(A, B, C); the honest modular one sits at index 23, before the
truncating one at index 24; a first-match rewriter folds every constant
MULMOD(a, b, c) to the honest value mulmodW a b c; and deleting the
second rule from the catalog never changes the rewriter's output, so
the second rule is never applied. -/
theorem C3_mulmod_rule_order :
    (simplificationRuleList.filter (fun r => decide (r.lhs = mulmodLhs))).length = 2 ∧
    simplificationRuleList.get ⟨23, by decide⟩ = ruleMulmodMod ∧
    simplificationRuleList.get ⟨24, by decide⟩ = ruleMulmodMul ∧
    (∀ (a b c : Nat) (s : ExprNode → Bool),
      applyRules simplificationRuleList
          (.op3 .MULMOD (.const a) (.const b) (.const c)) s =
        some (.const (mulmodW a b c))) ∧
    (∀ (e : ExprNode) (s : ExprNode → Bool),
      applyRules simplificationRuleList e s =
        applyRules
          (part1Pre ++ ruleMulmodMod :: (part1Post ++ simplificationRuleListPart2))
          e s) := by
  refine ⟨by decide, rfl, rfl, fun a b c s => rfl, fun e s => ?_⟩
  have hsplit : simplificationRuleList =
      part1Pre ++ ruleMulmodMod :: ruleMulmodMul ::
        (part1Post ++ simplificationRuleListPart2) := by
    simp [simplificationRuleList, simplificationRuleListPart1, List.append_assoc]
  rw [hsplit]
  exact applyRules_skip _ _ _ _ e s (mulmod_tryRule_key e s)

/-- C2 counterexample: the rule at catalog index 66 is AND(X, X)
rewriting to X.  It carries removable = true while the expression
placeholder X, bound on the left-hand side, appears on the right-hand
side, refuting the claim that no bound AnyExpression placeholder of a
removable rule appears on the right-hand side. -/
theorem C2_counterexample_andXX :
    simplificationRuleList.get ⟨66, by decide⟩ = ruleAndXX ∧
    ruleAndXX.removable = true ∧
    anyCount ruleAndXX.lhs AnyPH.X = 2 ∧
    anyCount (ruleAndXX.rhs 0 0 0) AnyPH.X = 1 :=
  ⟨rfl, rfl, rfl, rfl⟩

/-- C2 amended: every rule of the catalog with removable = true discards
at least one bound occurrence of an expression placeholder: for every
constant binding, some placeholder occurs strictly more often on the
left-hand side than on the built right-hand side (the placeholder may
still appear on the right-hand side, as in AND(X, X) to X). -/
theorem C2_amended_removable_discards (i : Nat)
    (h : i < simplificationRuleList.length)
    (hrem : (simplificationRuleList.get ⟨i, h⟩).removable = true) (a b c : Nat) :
    ∃ p, anyCount ((simplificationRuleList.get ⟨i, h⟩).rhs a b c) p <
      anyCount (simplificationRuleList.get ⟨i, h⟩).lhs p := by
  by_cases h94 : i < 94
  · have hL : i < simplificationRuleListPart1.length := by
      have hlen : simplificationRuleListPart1.length = 94 := by decide
      omega
    have e : simplificationRuleList.get ⟨i, h⟩ =
        simplificationRuleListPart1.get ⟨i, hL⟩ :=
      listGetAppendLeft simplificationRuleListPart1 simplificationRuleListPart2 i hL h
    rw [e] at hrem ⊢
    interval_cases i <;>
      first
        | exact absurd hrem (of_decide_eq_true rfl)
        | exact ⟨AnyPH.X, of_decide_eq_true rfl⟩
  · have h3 : simplificationRuleListPart1.length ≤ i := by
      have hlen : simplificationRuleListPart1.length = 94 := by decide
      omega
    have hmem : simplificationRuleList.get ⟨i, h⟩ ∈ simplificationRuleListPart2 :=
      getAppendMemRight simplificationRuleListPart1 simplificationRuleListPart2 i h3 h
    rw [part2_removable_eq_false _ hmem] at hrem
    exact Bool.noConfusion hrem

/-- C2 amended witness: the amended statement instantiated at the
AND(X, X) rule, catalog index 66, with binding 5, 6, 7. -/
theorem C2_amended_witness :
    ∃ p, anyCount ((simplificationRuleList.get ⟨66, by decide⟩).rhs 5 6 7) p <
      anyCount (simplificationRuleList.get ⟨66, by decide⟩).lhs p :=
  C2_amended_removable_discards 66 (by decide) (by decide) 5 6 7

/-- C4: every rule of the associativity and commutativity constant
sinking family (opcodes ADD, SADD, MUL, SMUL, AND, OR, XOR) is in the
catalog, and for every constant binding the expression placeholders
appear on the built right-hand side in the same left-to-right order as
on the left-hand side. -/
theorem C4_assoc_preserves_order (r : SimplificationRule) (hr : r ∈ part2Assoc) :
    r ∈ simplificationRuleList ∧
      ∀ a b c, anySeq (r.rhs a b c) = anySeq r.lhs := by
  constructor
  · have h2 : r ∈ simplificationRuleListPart2 := by
      show r ∈ part2Mod ++ (part2Addr ++ (part2DblNeg ++ ([ruleIsZero3] ++
        ([ruleIsZeroXor] ++ (part2Assoc ++ part2AddSub)))))
      exact List.mem_append_right _ (List.mem_append_right _
        (List.mem_append_right _ (List.mem_append_right _
          (List.mem_append_right _ (List.mem_append_left _ hr)))))
    show r ∈ simplificationRuleListPart1 ++ simplificationRuleListPart2
    exact List.mem_append_right _ h2
  · simp only [part2Assoc, List.mem_append] at hr
    rcases hr with hr | hr | hr | hr | hr | hr | hr | hr | hr | hr | hr | hr | hr | hr <;>
      first
        | exact assocGroup_anySeq _ _ _ (Or.inl rfl) r hr
        | exact assocGroup_anySeq _ _ _ (Or.inr rfl) r hr

/-- C4 witness: the first rule of the family, sinking two ADD constants,
instantiated at the binding 11, 22, 33. -/
theorem C4_assoc_witness :
    (assocGroup .ADD addW xaXA).get ⟨0, by decide⟩ ∈ simplificationRuleList ∧
      anySeq (((assocGroup .ADD addW xaXA).get ⟨0, by decide⟩).rhs 11 22 33) =
        anySeq ((assocGroup .ADD addW xaXA).get ⟨0, by decide⟩).lhs := by
  have h := C4_assoc_preserves_order ((assocGroup .ADD addW xaXA).get ⟨0, by decide⟩)
    (by
      show _ ∈ assocGroup .ADD addW xaXA ++ _
      exact List.mem_append_left _ (List.get_mem _ 0 (by decide)))
  exact ⟨h.1, h.2 11 22 33⟩

/-- C5: the SUB-of-ADD constant-sinking rules exist in the catalog for
both inner operand orders and share one action; the action builds
SUB(X, B - A) when A < B in unsigned order and ADD(X, A - B) otherwise;
the replacement always evaluates to (x + a) - b modulo 2 ^ 256, the
value of the original expression; and the rewriter rewrites the example
SUB(ADD(e, 3), 10) to SUB(e, 7). -/
theorem C5_sub_of_add_sinking (x a b c : Nat) (s : ExprNode → Bool) :
    ruleSubAddXA ∈ simplificationRuleList ∧
    ruleSubAddAX ∈ simplificationRuleList ∧
    ruleSubAddAX.rhs = ruleSubAddXA.rhs ∧
    ruleSubAddXA.rhs a b c =
      (if a < b then .op2 .SUB (.any .X) (.lit (subW b a))
       else .op2 .ADD (.any .X) (.lit (subW a b))) ∧
    evalPat (ruleSubAddXA.rhs a b c) 0 0 0 x 0 = some (subW (addW x a) b) ∧
    applyRules simplificationRuleList
        (.op2 .SUB (.op2 .ADD (.op0 .CALLER) (.const 3)) (.const 10)) s =
      some (.op2 .SUB (.op0 .CALLER) (.const 7)) := by
  refine ⟨?_, ?_, rfl, rfl, ?_, rfl⟩
  · show ruleSubAddXA ∈ simplificationRuleListPart1 ++ simplificationRuleListPart2
    refine List.mem_append_right _ ?_
    show ruleSubAddXA ∈ part2Mod ++ (part2Addr ++ (part2DblNeg ++ ([ruleIsZero3] ++
      ([ruleIsZeroXor] ++ (part2Assoc ++ part2AddSub)))))
    refine List.mem_append_right _ (List.mem_append_right _ (List.mem_append_right _
      (List.mem_append_right _ (List.mem_append_right _ (List.mem_append_right _ ?_)))))
    exact List.mem_append_left _ (List.mem_append_left _ (List.Mem.head _))
  · show ruleSubAddAX ∈ simplificationRuleListPart1 ++ simplificationRuleListPart2
    refine List.mem_append_right _ ?_
    show ruleSubAddAX ∈ part2Mod ++ (part2Addr ++ (part2DblNeg ++ ([ruleIsZero3] ++
      ([ruleIsZeroXor] ++ (part2Assoc ++ part2AddSub)))))
    refine List.mem_append_right _ (List.mem_append_right _ (List.mem_append_right _
      (List.mem_append_right _ (List.mem_append_right _ (List.mem_append_right _ ?_)))))
    exact List.mem_append_left _
      (List.mem_append_right _ (List.mem_append_left _ (List.Mem.head _)))
  · by_cases hab : a < b
    · have e : ruleSubAddXA.rhs a b c = .op2 .SUB (.any .X) (.lit (subW b a)) := by
        simp [ruleSubAddXA, hab]
      rw [e]
      show some (subW x (subW b a)) = some (subW (addW x a) b)
      rw [subW_subW_eq]
    · have e : ruleSubAddXA.rhs a b c = .op2 .ADD (.any .X) (.lit (subW a b)) := by
        simp [ruleSubAddXA, hab]
      rw [e]
      show some (addW x (subW a b)) = some (subW (addW x a) b)
      rw [addW_subW_eq]

/-- C6: for every i below 256 the catalog contains the generated rule
rewriting MOD(X, 2 ^ i) to AND(X, 2 ^ i - 1); both sides evaluate
equally on every word bound to X; and the rewriter rewrites the example
MOD(e, 256) to AND(e, 255). -/
theorem C6_mod_pow_two (i : Nat) (hi : i < 256) :
    mod2Rule i ∈ simplificationRuleList ∧
    (∀ x,
      evalPat (mod2Rule i).lhs 0 0 0 x 0 = some (modW x (2 ^ i)) ∧
      evalPat ((mod2Rule i).rhs 0 0 0) 0 0 0 x 0 = some (andW x (2 ^ i - 1)) ∧
      modW x (2 ^ i) = andW x (2 ^ i - 1)) ∧
    (∀ s, applyRules simplificationRuleList
        (.op2 .MOD (.op0 .CALLER) (.const 256)) s =
      some (.op2 .AND (.op0 .CALLER) (.const 255))) := by
  refine ⟨?_, fun x => ⟨rfl, rfl, ?_⟩, fun s => rfl⟩
  · have h1 : mod2Rule i ∈ part2Mod :=
      List.mem_map.mpr ⟨i, List.mem_range.mpr hi, rfl⟩
    show mod2Rule i ∈ simplificationRuleListPart1 ++ simplificationRuleListPart2
    refine List.mem_append_right _ ?_
    show mod2Rule i ∈ part2Mod ++ (part2Addr ++ (part2DblNeg ++ ([ruleIsZero3] ++
      ([ruleIsZeroXor] ++ (part2Assoc ++ part2AddSub)))))
    exact List.mem_append_left _ h1
  · have h2 : (2 : Nat) ^ i ≠ 0 := (Nat.two_pow_pos i).ne'
    rw [modW, if_neg h2, modWorkaround, andW, mod_two_pow_eq_land]

/-- C6 witness: instantiated at i = 8, matching the spec scenario
MOD(X, 256) rewritten to AND(X, 255), with X bound to the word 1000. -/
theorem C6_mod_pow_two_witness :
    mod2Rule 8 ∈ simplificationRuleList ∧ modW 1000 (2 ^ 8) = andW 1000 (2 ^ 8 - 1) := by
  have h := C6_mod_pow_two 8 (by decide)
  exact ⟨h.1, (h.2.1 1000).2.2⟩

/-- C9: the SIGNEXTEND folding rule, at catalog index 25, computes
signextendW; folding returns the value unchanged for byte index at
least 31; below 31 every bit up to the sign bit 8k + 7 is kept and
every higher bit up to 255 copies the sign bit; and the rewriter folds
SIGNEXTEND(0, 255) to the all-ones word 2 ^ 256 - 1. -/
theorem C9_signextend_folding (k v i c : Nat) :
    ruleSignextendFold.rhs k v c = .lit (signextendW k v) ∧
    simplificationRuleList.get ⟨25, by decide⟩ = ruleSignextendFold ∧
    (31 ≤ k → signextendW k v = v) ∧
    (k < 31 → i < 256 →
      (signextendW k v).testBit i =
        if i ≤ k * 8 + 7 then v.testBit i else v.testBit (k * 8 + 7)) ∧
    (∀ s, applyRules simplificationRuleList
        (.op2 .SIGNEXTEND (.const 0) (.const 255)) s = some (.const (W - 1))) := by
  refine ⟨rfl, rfl, fun hk => ?_, fun hk hi => signextendW_testBit k v i hk hi,
    fun s => rfl⟩
  rw [signextendW, if_pos hk]

/-- C9 witness: the unchanged case at k = 31 and the bit characterization
at k = 0, v = 255, bit 9, which copies the sign bit upward. -/
theorem C9_signextend_witness :
    signextendW 31 12345 = 12345 ∧
    ((signextendW 0 255).testBit 9 =
      if 9 ≤ 0 * 8 + 7 then Nat.testBit 255 9 else Nat.testBit 255 7) := by
  have h1 := C9_signextend_folding 31 12345 9 0
  have h2 := C9_signextend_folding 0 255 9 0
  exact ⟨h1.2.2.1 (by decide), h2.2.2.2.1 (by decide) (by decide)⟩
